import Mathlib
/-!
Verification of the reinforcement-learning voltage-control core:
shallow embedding of the replay memory (memory.py), the reward function
(environment.py), the state-snapshot equality (state.py / elements.py)
and the dueling Q-network (neural_network.py / environment.py), with
theorems settling the specification claims.
-/

namespace VoltageRL

/-! ## Replay memory (memory.py)

Python: `self._memory = deque(maxlen=size)`; `add` appends on the right and
the deque discards the oldest element (on the left) once `maxlen` is
reached; `sample(batch_size)` draws `batch_size` distinct indices via
`np.random.choice(np.arange(len), size=batch_size, replace=False)` and
returns the items at those indices.  The random draw is modelled as an
oracle parameter: any index list numpy could return (length `batch_size`,
no duplicates, all indices in range). -/

structure Memory (α : Type) where
  maxlen : ℕ
  mem : List α

/-- Memory.__init__ : an empty deque with the given maximum length. -/
def Memory.init (α : Type) (size : ℕ) : Memory α :=
  ⟨size, []⟩

/-- Memory.add : append on the right; a full deque drops its oldest item. -/
def Memory.add (m : Memory α) (item : α) : Memory α :=
  let b := m.mem ++ [item]
  ⟨m.maxlen, if m.maxlen < b.length then b.tail else b⟩

/-- Memory.__len__ . -/
def Memory.length (m : Memory α) : ℕ :=
  m.mem.length

/-- Sequence of Memory.add calls, oldest item first. -/
def Memory.addAll (m : Memory α) (items : List α) : Memory α :=
  items.foldl Memory.add m

/-- List-comprehension `[self._memory[i] for i in random_indexes]`, where
an out-of-range index raises (modelled as `none`). -/
def lookups (l : List α) : List ℕ → Option (List α)
  | [] => some []
  | i :: is =>
    match l[i]?, lookups l is with
    | some a, some as => some (a :: as)
    | _, _ => none

/-- Memory.sample : `np.random.choice(arange(len), size=batch_size,
replace=False)` raises a ValueError when `batch_size` exceeds the
population, which is the only failure; otherwise the drawn indices
(oracle argument `draw`) select the returned items. `none` models the
raised exception. -/
def Memory.sample (m : Memory α) (batchSize : ℕ) (draw : List ℕ) :
    Option (List α) :=
  if batchSize ≤ m.mem.length then
    lookups m.mem draw
  else
    none

/-! ## Reward computation (environment.py, global_configuration.py)

The reward constants of Configuration, the action tuples produced by
OpenDssEngine.get_possible_actions (method name, element name, enum code),
Environment._check_action_undone and Environment.calculate_reward.  Python
floats are modelled as exact rationals; `statistics.mean` requires a
non-empty list, so theorems carry non-emptiness hypotheses where the mean
is involved.  The per-(bus, minute) voltage-target table self._targets is
an optional lookup function, `none` meaning no target file exists. -/

structure RLConfig where
  lower_voltage_limit : ℚ
  upper_voltage_limit : ℚ
  target_voltage : ℚ
  out_of_limits_penalty : ℚ
  toward_target_reward : ℚ
  away_target_penalty_over : ℚ
  stand_still_reward_out_of_target : ℚ
  meaningless_action_penalty : ℚ
  action_undone_penalty : ℚ

/-- Configuration constants from global_configuration.py. -/
def theConfig : RLConfig where
  lower_voltage_limit := 92 / 100
  upper_voltage_limit := 105 / 100
  target_voltage := 1
  out_of_limits_penalty := -1
  toward_target_reward := 1 / 2
  away_target_penalty_over := -95 / 100
  stand_still_reward_out_of_target := 1 / 10
  meaningless_action_penalty := -8 / 10
  action_undone_penalty := -1

/-- Enum codes appearing as the third component of an action tuple
(CapacitorCodes.Action and TransformerCodes.Action). -/
inductive ActionParam where
  | capStepUp
  | capStepDown
  | tapUp
  | tapDown
  deriving DecidableEq, Repr

/-- An action tuple (method name, element name, enum code); the agent's
no-op action is `none` at the Option level. -/
structure ActionTuple where
  op : String
  target : String
  param : ActionParam
  deriving DecidableEq, Repr

/-- Environment._check_action_undone, ported line by line; the method
names compared are `switch_capacitor.__name__` and `change_tap.__name__`. -/
def check_action_undone (last_action action : Option ActionTuple) : Bool :=
  match action, last_action with
  | some a, some la =>
    if la.op ≠ a.op then false
    else if la.target ≠ a.target then false
    else if a.op = "switch_capacitor" then
      (a.param == ActionParam.capStepUp && la.param == ActionParam.capStepDown)
        || (a.param == ActionParam.capStepDown && la.param == ActionParam.capStepUp)
    else if a.op = "change_tap" then
      (a.param == ActionParam.tapUp && la.param == ActionParam.tapDown)
        || (a.param == ActionParam.tapDown && la.param == ActionParam.tapUp)
    else false
  | _, _ => false

/-- statistics.mean (total here; Python raises on an empty list, so every
theorem that touches it assumes non-empty voltage lists). -/
def mean (l : List ℚ) : ℚ :=
  l.sum / l.length

/-- Python round-half-to-even of a rational to the nearest integer. -/
def roundHalfEven (x : ℚ) : ℤ :=
  let f := ⌊x⌋
  if x - f < 1 / 2 then f
  else if x - f > 1 / 2 then f + 1
  else if f % 2 = 0 then f else f + 1

/-- Python round(x, 3). -/
def round3 (x : ℚ) : ℚ :=
  (roundHalfEven (1000 * x) : ℚ) / 1000

/-- One bus entry of get_voltages(): {'bus': name, 'voltages': tuple}. -/
structure BusVoltages where
  bus : String
  voltages : List ℚ
  deriving DecidableEq, Repr

/-- Target resolution inside calculate_reward: query the per-weekday
table at (bus, current_step) when a table was loaded, falling back to the
global default target. -/
def resolveTarget (cfg : RLConfig) (targets : Option (String → ℕ → Option ℚ))
    (currentStep : ℕ) (bus : String) : ℚ :=
  match targets with
  | some t =>
    match t bus currentStep with
    | some tv => tv
    | none => cfg.target_voltage
  | none => cfg.target_voltage

/-- Whether a voltage falls outside [lower_limit, upper_limit] × target. -/
abbrev outOfLimits (cfg : RLConfig) (vTarget vAfter : ℚ) : Prop :=
  cfg.lower_voltage_limit * vTarget > vAfter ∨ vAfter > cfg.upper_voltage_limit * vTarget

/-- Loop body of calculate_reward for one zipped (previous, current) bus
pair, threading the accumulated reward. -/
def rewardStep (cfg : RLConfig) (targets : Option (String → ℕ → Option ℚ))
    (currentStep : ℕ) (action last_action : Option ActionTuple)
    (reward : ℚ) (pc : BusVoltages × BusVoltages) : ℚ :=
  let vTarget := resolveTarget cfg targets currentStep pc.2.bus
  let vBefore := round3 (mean pc.1.voltages)
  let vAfter := round3 (mean pc.2.voltages)
  let reward :=
    if |vTarget - vBefore| < |vTarget - vAfter| then
      let reward := reward + cfg.away_target_penalty_over
      if outOfLimits cfg vTarget vAfter then reward + cfg.out_of_limits_penalty
      else reward
    else if |vTarget - vBefore| > |vTarget - vAfter| then
      reward + cfg.toward_target_reward
    else
      let reward :=
        if outOfLimits cfg vTarget vAfter then reward + cfg.out_of_limits_penalty
        else reward
      if action = none then reward + cfg.stand_still_reward_out_of_target
      else reward + cfg.meaningless_action_penalty
  if check_action_undone last_action action then reward + cfg.action_undone_penalty
  else reward

/-- Environment.calculate_reward: fold the loop body over the positional
zip of the previous and current voltage readings, starting from 0. -/
def calculate_reward (cfg : RLConfig) (targets : Option (String → ℕ → Option ℚ))
    (currentStep : ℕ) (previous_state current_state : List BusVoltages)
    (action last_action : Option ActionTuple) : ℚ :=
  (previous_state.zip current_state).foldl
    (rewardStep cfg targets currentStep action last_action) 0

/-! ## State snapshots and their equality (state.py, elements.py)

Each element class stores a name plus scalar state and overrides __eq__;
the comparisons are ported one class at a time (Load.__eq__ compares only
_name and _kw; Bus.__eq__ compares names and the 3-decimal rounded mean
of the voltage list).  State.__eq__ walks the categories in source order;
for each element of self it looks up the first element of the other
snapshot with the same name (next(filter(...), None)) and compares.  A
missing match makes Python evaluate `e == None`, which raises
AttributeError, and Bus.__eq__ raises on an empty voltage list
(statistics.mean); both exceptions are modelled as `none`, so snapshot
equality is an `Option Bool`: `some r` is a returned bool, `none` a
raised exception. -/

structure Capacitor where
  name : String
  states : List ℤ
  deriving DecidableEq, Repr

structure Switch where
  name : String
  state : ℤ
  deriving DecidableEq, Repr

structure Transformer where
  name : String
  tap : ℚ
  deriving DecidableEq, Repr

structure Load where
  name : String
  kw : ℚ
  kvar : ℚ
  deriving DecidableEq, Repr

structure Generator where
  name : String
  kw : ℚ
  kvar : ℚ
  pf : ℚ
  deriving DecidableEq, Repr

structure VSource where
  name : String
  vpu : ℚ
  deriving DecidableEq, Repr

structure ISource where
  name : String
  amps : ℚ
  deriving DecidableEq, Repr

structure Bus where
  name : String
  vpu : List ℚ
  deriving DecidableEq, Repr

/-- Capacitor.__eq__ : name and states. -/
def Capacitor.eq (a b : Capacitor) : Option Bool :=
  some (decide (a.name = b.name ∧ a.states = b.states))

/-- Switch.__eq__ : name and state. -/
def Switch.eq (a b : Switch) : Option Bool :=
  some (decide (a.name = b.name ∧ a.state = b.state))

/-- Transformer.__eq__ : name and tap. -/
def Transformer.eq (a b : Transformer) : Option Bool :=
  some (decide (a.name = b.name ∧ a.tap = b.tap))

/-- Load.__eq__ : name and kw only; _kvar is NOT compared (elements.py
line 1114). -/
def Load.eq (a b : Load) : Option Bool :=
  some (decide (a.name = b.name ∧ a.kw = b.kw))

/-- Generator.__eq__ : name, kw, kvar and pf. -/
def Generator.eq (a b : Generator) : Option Bool :=
  some (decide (a.name = b.name ∧ a.kw = b.kw ∧ a.kvar = b.kvar ∧ a.pf = b.pf))

/-- VSource.__eq__ : name and vpu. -/
def VSource.eq (a b : VSource) : Option Bool :=
  some (decide (a.name = b.name ∧ a.vpu = b.vpu))

/-- ISource.__eq__ : name and amps. -/
def ISource.eq (a b : ISource) : Option Bool :=
  some (decide (a.name = b.name ∧ a.amps = b.amps))

/-- Bus.__eq__ : name and round(mean(vpu), 3); statistics.mean raises on
an empty voltage list (`none`). -/
def Bus.eq (a b : Bus) : Option Bool :=
  if a.vpu = [] ∨ b.vpu = [] then none
  else some (decide (a.name = b.name ∧ round3 (mean a.vpu) = round3 (mean b.vpu)))

/-- State snapshot: one tuple of detached elements per category. -/
structure State where
  capacitors : List Capacitor
  switches : List Switch
  transformers : List Transformer
  loads : List Load
  generators : List Generator
  isources : List ISource
  vsources : List VSource
  buses : List Bus
  deriving DecidableEq, Repr

/-- next(filter(lambda o: o.get_name() == e.get_name(), other), None). -/
def findByName (getName : E → String) (n : String) (l : List E) : Option E :=
  l.find? (fun o => getName o == n)

/-- Loop body of one category of State.__eq__ : for each element of self,
look up its name match in other and compare; a missing match means
`e == None` is evaluated, which raises (`none`). -/
def categoryLoop (getName : E → String) (eqE : E → E → Option Bool)
    (other : List E) : List E → Option Bool
  | [] => some true
  | e :: es =>
    match findByName getName (getName e) other with
    | none => none
    | some o =>
      match eqE e o with
      | some true => categoryLoop getName eqE other es
      | some false => some false
      | none => none

/-- One category of State.__eq__: `if self._cat: loop ... elif other._cat:
return False`, falling through (true) when both are empty. -/
def categoryEq (getName : E → String) (eqE : E → E → Option Bool)
    (self other : List E) : Option Bool :=
  if self.isEmpty then (if other.isEmpty then some true else some false)
  else categoryLoop getName eqE other self

/-- Sequential chaining of the category checks: the first check that does
not succeed with True decides the outcome (early `return False` or a
raised exception). -/
def seqCats : List (Option Bool) → Option Bool
  | [] => some true
  | c :: cs =>
    match c with
    | some true => seqCats cs
    | r => r

/-- State.__eq__ : categories in source order (capacitors, switches,
transformers, loads, generators, isources, vsources, buses — buses ARE
compared, via Bus.__eq__). -/
def State.eq (a b : State) : Option Bool :=
  seqCats
    [categoryEq Capacitor.name Capacitor.eq a.capacitors b.capacitors,
      categoryEq Switch.name Switch.eq a.switches b.switches,
      categoryEq Transformer.name Transformer.eq a.transformers b.transformers,
      categoryEq Load.name Load.eq a.loads b.loads,
      categoryEq Generator.name Generator.eq a.generators b.generators,
      categoryEq ISource.name ISource.eq a.isources b.isources,
      categoryEq VSource.name VSource.eq a.vsources b.vsources,
      categoryEq Bus.name Bus.eq a.buses b.buses]

/-- Snapshot with one capacitor and one bus at voltage 1. -/
def voltCexA : State :=
  ⟨[⟨"c1", [1]⟩], [], [], [], [], [], [], [⟨"b1", [1]⟩]⟩

/-- Same snapshot except the bus voltage reads 2. -/
def voltCexB : State :=
  ⟨[⟨"c1", [1]⟩], [], [], [], [], [], [], [⟨"b1", [2]⟩]⟩

/-- Snapshot with a single load of kw 10 and kvar 5. -/
def loadCexA : State :=
  ⟨[], [], [], [⟨"l1", 10, 5⟩], [], [], [], []⟩

/-- Same snapshot except the load's kvar is 7. -/
def loadCexB : State :=
  ⟨[], [], [], [⟨"l1", 10, 7⟩], [], [], [], []⟩

/-- Snapshot with one capacitor named x. -/
def dupCexA : State :=
  ⟨[⟨"x", [1]⟩], [], [], [], [], [], [], []⟩

/-- Snapshot with two capacitors that share the name x but have different
states. -/
def dupCexB : State :=
  ⟨[⟨"x", [1]⟩, ⟨"x", [2]⟩], [], [], [], [], [], [], []⟩

/-- Whether the categories of c and d agree when both return a result
(used to transfer a verdict between the two evaluation orders). -/
def optCompat (c d : Option Bool) : Prop :=
  (c = some true → d ≠ some false) ∧ (d = some true → c ≠ some false)

/-- Entity names are pairwise distinct within every category. -/
def NamesUnique (s : State) : Prop :=
  (s.capacitors.map Capacitor.name).Nodup ∧
    (s.switches.map Switch.name).Nodup ∧
    (s.transformers.map Transformer.name).Nodup ∧
    (s.loads.map Load.name).Nodup ∧
    (s.generators.map Generator.name).Nodup ∧
    (s.isources.map ISource.name).Nodup ∧
    (s.vsources.map VSource.name).Nodup ∧
    (s.buses.map Bus.name).Nodup

/-- Every bus carries at least one voltage sample (so statistics.mean
does not raise). -/
def BusesNonempty (s : State) : Prop :=
  ∀ b ∈ s.buses, b.vpu ≠ []

/-! ## Dueling Q-network (neural_network.py) and the training targets
(environment.py _train_network)

Network.model normalizes the input batch with the fitted MinMaxScaler (a
per-feature affine map), passes it through two shared dense+ReLU layers,
a value stream (dense ReLU then dense swish to one unit) and an advantage
stream (dense ReLU then dense swish to the action count), and combines as
`output = value + (advantage - tf.math.reduce_mean(advantage))`.  NOTE:
reduce_mean is called WITHOUT an axis argument, so it averages over every
entry of the advantage tensor (the whole batch), not per row.  Real
numbers model float32; tf.nn.swish is x * sigmoid(x). -/

/-- tf.nn.relu. -/
noncomputable def relu (x : ℝ) : ℝ := max x 0

/-- Logistic sigmoid. -/
noncomputable def sigmoid (x : ℝ) : ℝ := 1 / (1 + Real.exp (-x))

/-- tf.nn.swish : x * sigmoid x. -/
noncomputable def swish (x : ℝ) : ℝ := x * sigmoid x

/-- Fitted state of the MinMaxScaler: transform is per-feature affine,
X * scale_ + min_. -/
structure Scaler (n : ℕ) where
  scale : Fin n → ℝ
  minOff : Fin n → ℝ

/-- MinMaxScaler.transform on a batch. -/
noncomputable def Scaler.transform (s : Scaler n) (x : Matrix (Fin r) (Fin n) ℝ) :
    Matrix (Fin r) (Fin n) ℝ :=
  fun i j => s.scale j * x i j + s.minOff j

/-- Identity scaler (the fitted state after seeing features spanning
exactly [0, 1]). -/
noncomputable def idScaler (n : ℕ) : Scaler n :=
  ⟨fun _ => 1, fun _ => 0⟩

/-- The six weight/bias tensor pairs of Network.initialize_weights_bias,
at the source's layer sizes (16, 32, value 16 to 1, advantage 16 to the
action count). -/
structure NetworkParams (inputSize outputSize : ℕ) where
  w0 : Matrix (Fin inputSize) (Fin 16) ℝ
  b0 : Fin 16 → ℝ
  w1 : Matrix (Fin 16) (Fin 32) ℝ
  b1 : Fin 32 → ℝ
  w2 : Matrix (Fin 32) (Fin 16) ℝ
  b2 : Fin 16 → ℝ
  w3 : Matrix (Fin 16) (Fin 1) ℝ
  b3 : Fin 1 → ℝ
  w4 : Matrix (Fin 32) (Fin 16) ℝ
  b4 : Fin 16 → ℝ
  w5 : Matrix (Fin 16) (Fin outputSize) ℝ
  b5 : Fin outputSize → ℝ

/-- Network._dense_layer : activation(matmul(x, weights) + bias), the
bias row broadcast over the batch rows. -/
noncomputable def dense_layer (x : Matrix (Fin r) (Fin n) ℝ)
    (w : Matrix (Fin n) (Fin p) ℝ) (b : Fin p → ℝ) (act : ℝ → ℝ) :
    Matrix (Fin r) (Fin p) ℝ :=
  fun i j => act ((∑ k, x i k * w k j) + b j)

/-- tf.math.reduce_mean with no axis: the mean over every entry. -/
noncomputable def reduce_mean (A : Matrix (Fin r) (Fin c) ℝ) : ℝ :=
  (∑ i, ∑ j, A i j) / ((r : ℝ) * (c : ℝ))

/-- hidden_layer_1 of Network.model. -/
noncomputable def hidden1 (p : NetworkParams inputSize outputSize)
    (sc : Scaler inputSize) (inputs : Matrix (Fin r) (Fin inputSize) ℝ) :
    Matrix (Fin r) (Fin 16) ℝ :=
  dense_layer (sc.transform inputs) p.w0 p.b0 relu

/-- hidden_layer_2 of Network.model. -/
noncomputable def hidden2 (p : NetworkParams inputSize outputSize)
    (sc : Scaler inputSize) (inputs : Matrix (Fin r) (Fin inputSize) ℝ) :
    Matrix (Fin r) (Fin 32) ℝ :=
  dense_layer (hidden1 p sc inputs) p.w1 p.b1 relu

/-- value_layer_output of Network.model (value stream). -/
noncomputable def value_layer_output (p : NetworkParams inputSize outputSize)
    (sc : Scaler inputSize) (inputs : Matrix (Fin r) (Fin inputSize) ℝ) :
    Matrix (Fin r) (Fin 1) ℝ :=
  dense_layer (dense_layer (hidden2 p sc inputs) p.w2 p.b2 relu) p.w3 p.b3 swish

/-- advantage_layer_output of Network.model (advantage stream). -/
noncomputable def advantage_layer_output (p : NetworkParams inputSize outputSize)
    (sc : Scaler inputSize) (inputs : Matrix (Fin r) (Fin inputSize) ℝ) :
    Matrix (Fin r) (Fin outputSize) ℝ :=
  dense_layer (dense_layer (hidden2 p sc inputs) p.w4 p.b4 relu) p.w5 p.b5 swish

/-- Network.model : value + (advantage - reduce_mean(advantage)), the
value column broadcast over actions and the advantage mean taken over
the WHOLE batch tensor (no axis). -/
noncomputable def model (p : NetworkParams inputSize outputSize)
    (sc : Scaler inputSize) (inputs : Matrix (Fin r) (Fin inputSize) ℝ) :
    Matrix (Fin r) (Fin outputSize) ℝ :=
  fun i j => value_layer_output p sc inputs i 0 +
    (advantage_layer_output p sc inputs i j -
      reduce_mean (advantage_layer_output p sc inputs))

/-- The mean over the action dimension of row i of (Q - V). -/
noncomputable def rowMeanQminusV (p : NetworkParams inputSize outputSize)
    (sc : Scaler inputSize) (inputs : Matrix (Fin r) (Fin inputSize) ℝ)
    (i : Fin r) : ℝ :=
  (∑ j, (model p sc inputs i j - value_layer_output p sc inputs i 0)) /
    (outputSize : ℝ)

/-- np.argmax over one row: the first index attaining the maximum. -/
noncomputable def npArgmax {m : ℕ} [NeZero m] (v : Fin m → ℝ) : Fin m :=
  (Finset.univ.filter (fun j => ∀ k, v k ≤ v j)).min' (by
    obtain ⟨j, _, hj⟩ := Finset.exists_max_image Finset.univ v
      ⟨0, Finset.mem_univ 0⟩
    exact ⟨j, Finset.mem_filter.mpr ⟨Finset.mem_univ j,
      fun k => hj k (Finset.mem_univ k)⟩⟩)

/-- np.expand_dims(row i, 0): the one-row batch holding row i. -/
noncomputable def singleRow (X : Matrix (Fin r) (Fin n) ℝ) (i : Fin r) :
    Matrix (Fin 1) (Fin n) ℝ :=
  fun _ k => X i k

/-- The regression targets of Environment._train_network: both networks
forward the whole batch of next states; best_actions is the per-row
argmax of the online outputs, and targets = rewards + discount *
(target-network outputs gathered at best_actions). -/
noncomputable def train_targets (γ : ℝ) (rewards : Fin r → ℝ)
    (nextInputs : Matrix (Fin r) (Fin inputSize) ℝ)
    (pOn pTg : NetworkParams inputSize (m + 1)) (sc : Scaler inputSize) :
    Fin r → ℝ :=
  fun i => rewards i + γ *
    model pTg sc nextInputs i (npArgmax (fun j => model pOn sc nextInputs i j))

/-- Concrete parameter set (input size 1, two actions): the input feeds
straight through to both advantage outputs, the value stream is zero. -/
noncomputable def cexParams : NetworkParams 1 2 where
  w0 := fun _ j => if j = 0 then 1 else 0
  b0 := 0
  w1 := fun k j => if j = 0 then (if k = 0 then 1 else 0) else 0
  b1 := 0
  w2 := 0
  b2 := 0
  w3 := 0
  b3 := 0
  w4 := fun k j => if j = 0 then (if k = 0 then 1 else 0) else 0
  b4 := 0
  w5 := fun k _ => if k = 0 then 1 else 0
  b5 := 0

/-- Two-row batch: first row 0, second row 1. -/
noncomputable def cexInput : Matrix (Fin 2) (Fin 1) ℝ :=
  fun i _ => if i = 0 then 0 else 1

/-! ## get_variables / update_variables (neural_network.py)

Python object semantics: every tf.Variable is a mutable cell on a heap;
Network._weights and Network._bias are lists of references to those
cells, and __init__ sets `self._variables = self._weights + self._bias`
(a new list holding the same references).  get_variables returns
`[tf.Variable(t) for t in self._variables]` — freshly allocated copies —
and update_variables does `self._variables = variables`, rebinding ONLY
the _variables list; model() reads self._weights / self._bias.  Cells are
untyped tensors ℕ → ℕ → ℝ. -/

structure Heap where
  cells : ℕ → (ℕ → ℕ → ℝ)
  next : ℕ

/-- A network object: six weight refs, six bias refs, and the _variables
list, initialized as weights + bias. -/
structure NetworkObj where
  weightRefs : Fin 6 → ℕ
  biasRefs : Fin 6 → ℕ
  varRefs : List ℕ

/-- The state after initialize_weights_bias:
self._variables = self._weights + self._bias. -/
def NetworkObj.initVars (w b : Fin 6 → ℕ) : NetworkObj :=
  ⟨w, b, List.ofFn w ++ List.ofFn b⟩

/-- Allocate a fresh copy of each referenced cell (tf.Variable(t)). -/
noncomputable def allocCopies (h : Heap) : List ℕ → Heap × List ℕ
  | [] => (h, [])
  | r :: rs =>
    let h1 : Heap := ⟨fun c => if c = h.next then h.cells r else h.cells c,
      h.next + 1⟩
    ((allocCopies h1 rs).1, h.next :: (allocCopies h1 rs).2)

/-- Network.get_variables : [tf.Variable(t) for t in self._variables]. -/
noncomputable def get_variables (h : Heap) (nw : NetworkObj) : Heap × List ℕ :=
  allocCopies h nw.varRefs

/-- Network.update_variables : self._variables = variables (the weight
and bias reference lists are untouched). -/
def update_variables (nw : NetworkObj) (vars : List ℕ) : NetworkObj :=
  { nw with varRefs := vars }

/-- The parameters Network.model reads: self._weights[i] and
self._bias[i] dereferenced on the heap (bias tensors have shape [1, p]). -/
noncomputable def paramsOf (h : Heap) (nw : NetworkObj) (inSz outSz : ℕ) :
    NetworkParams inSz outSz where
  w0 := fun i j => h.cells (nw.weightRefs 0) i.val j.val
  b0 := fun j => h.cells (nw.biasRefs 0) 0 j.val
  w1 := fun i j => h.cells (nw.weightRefs 1) i.val j.val
  b1 := fun j => h.cells (nw.biasRefs 1) 0 j.val
  w2 := fun i j => h.cells (nw.weightRefs 2) i.val j.val
  b2 := fun j => h.cells (nw.biasRefs 2) 0 j.val
  w3 := fun i j => h.cells (nw.weightRefs 3) i.val j.val
  b3 := fun j => h.cells (nw.biasRefs 3) 0 j.val
  w4 := fun i j => h.cells (nw.weightRefs 4) i.val j.val
  b4 := fun j => h.cells (nw.biasRefs 4) 0 j.val
  w5 := fun i j => h.cells (nw.weightRefs 5) i.val j.val
  b5 := fun j => h.cells (nw.biasRefs 5) 0 j.val

/-- Forward pass of a heap-resident network object. -/
noncomputable def modelObj (h : Heap) (nw : NetworkObj) (inSz outSz : ℕ)
    (sc : Scaler inSz) (X : Matrix (Fin r) (Fin inSz) ℝ) :
    Matrix (Fin r) (Fin outSz) ℝ :=
  model (paramsOf h nw inSz outSz) sc X

/-- In-place mutation of one tf.Variable cell. -/
def writeCell (h : Heap) (r : ℕ) (t : ℕ → ℕ → ℝ) : Heap :=
  ⟨fun c => if c = r then t else h.cells c, h.next⟩

/-- Parameter set that is zero everywhere except the value-output bias. -/
noncomputable def onlyValueBias (n m : ℕ) (c : ℝ) : NetworkParams n m :=
  ⟨0, 0, 0, 0, 0, 0, 0, fun _ => c, 0, 0, 0, 0⟩

/-- The online network object: weight cells 0-5, bias cells 6-11. -/
def onlineObj : NetworkObj :=
  NetworkObj.initVars (fun i => i.val) (fun i => 6 + i.val)

/-- The target network object: weight cells 12-17, bias cells 18-23. -/
def targetObj : NetworkObj :=
  NetworkObj.initVars (fun i => 12 + i.val) (fun i => 18 + i.val)

/-- Initial heap: the online value-output bias (cell 9 = biasRefs 3) is
all ones; every other cell, in particular all twelve target cells, is
zero. -/
noncomputable def heap0 : Heap :=
  ⟨fun c => if c = 9 then (fun _ _ => 1) else (fun _ _ => 0), 24⟩

/-- Heap after target.update_variables(online.get_variables()). -/
noncomputable def heapAfterSync : Heap :=
  (get_variables heap0 onlineObj).1

/-- Target object after target.update_variables(online.get_variables()). -/
noncomputable def targetAfterSync : NetworkObj :=
  update_variables targetObj (get_variables heap0 onlineObj).2

/-! ## Theorems -/

lemma Memory.add_mem_eq (m : Memory α) (x : α)
    (h : m.mem.length ≤ m.maxlen) :
    (m.add x).mem = (m.mem ++ [x]).drop (m.mem.length + 1 - m.maxlen) := by
  show (if m.maxlen < (m.mem ++ [x]).length then (m.mem ++ [x]).tail
        else (m.mem ++ [x])) = _
  have hA : (m.mem ++ [x]).length = m.mem.length + 1 := by simp
  rw [hA]
  by_cases hc : m.maxlen < m.mem.length + 1
  · rw [if_pos hc]
    have h1 : m.mem.length + 1 - m.maxlen = 1 := by omega
    rw [h1, List.drop_one]
  · rw [if_neg hc]
    have h0 : m.mem.length + 1 - m.maxlen = 0 := by omega
    rw [h0, List.drop_zero]

lemma Memory.addAll_mem_eq (m : Memory α) (xs : List α)
    (h : m.mem.length ≤ m.maxlen) :
    (m.addAll xs).mem =
      (m.mem ++ xs).drop ((m.mem ++ xs).length - m.maxlen) := by
  induction xs generalizing m with
  | nil =>
      simp [Memory.addAll, Nat.sub_eq_zero_of_le h]
  | cons x xs ih =>
      have hml : (m.add x).maxlen = m.maxlen := rfl
      have hmem : (m.add x).mem =
          (m.mem ++ [x]).drop (m.mem.length + 1 - m.maxlen) :=
        Memory.add_mem_eq m x h
      have hlen : (m.add x).mem.length ≤ (m.add x).maxlen := by
        rw [hmem, hml]
        simp only [List.length_drop, List.length_append, List.length_cons,
          List.length_nil]
        omega
      have hfold : m.addAll (x :: xs) = (m.add x).addAll xs := rfl
      rw [hfold, ih _ hlen, hml, hmem]
      have hdle : m.mem.length + 1 - m.maxlen ≤ (m.mem ++ [x]).length := by
        simp only [List.length_append, List.length_cons, List.length_nil]
        omega
      rw [← List.drop_append_of_le_length hdle, List.drop_drop]
      have hassoc : m.mem ++ [x] ++ xs = m.mem ++ x :: xs := by
        simp [List.append_assoc]
      rw [hassoc]
      congr 1
      simp only [List.length_append, List.length_drop, List.length_cons,
        List.length_nil]
      omega

/-- C8: for capacity C, after inserting N > C items into a fresh memory,
the length equals C and the buffer holds exactly the C most recently
inserted items, with the oldest evicted first (the survivors are the
final C items of the insertion sequence, in insertion order). -/
theorem replayMemory_fifo_eviction (C : ℕ) (xs : List α)
    (h : C < xs.length) :
    ((Memory.init α C).addAll xs).length = C ∧
      ((Memory.init α C).addAll xs).mem = xs.drop (xs.length - C) := by
  have hbase : ((Memory.init α C).addAll xs).mem =
      ((Memory.init α C).mem ++ xs).drop
        (((Memory.init α C).mem ++ xs).length - (Memory.init α C).maxlen) :=
    Memory.addAll_mem_eq (Memory.init α C) xs (by simp [Memory.init])
  simp only [Memory.init, List.nil_append] at hbase
  simp only [Memory.init, Memory.length]
  refine ⟨?_, hbase⟩
  rw [hbase]
  simp only [List.length_drop]
  omega

/-- Witness for C8 at capacity 2 and four insertions. -/
theorem replayMemory_fifo_eviction_witness :
    ((Memory.init ℕ 2).addAll [10, 20, 30, 40]).length = 2 ∧
      ((Memory.init ℕ 2).addAll [10, 20, 30, 40]).mem = [30, 40] :=
  replayMemory_fifo_eviction 2 [10, 20, 30, 40] (by decide)

lemma lookups_of_inRange (l : List α) (idx : List ℕ)
    (hrange : ∀ i ∈ idx, i < l.length) :
    ∃ out : List α, lookups l idx = some out ∧
      out.length = idx.length ∧ (∀ x ∈ out, x ∈ l) ∧
      (∀ j : ℕ, j < idx.length → out[j]? = l[idx.getD j 0]?) := by
  induction idx with
  | nil => exact ⟨[], rfl, rfl, by simp, by simp⟩
  | cons i is ih =>
      have hi : i < l.length := hrange i (by simp)
      obtain ⟨a, ha⟩ : ∃ a, l[i]? = some a :=
        ⟨l.get ⟨i, hi⟩, by rw [List.getElem?_eq_getElem hi]; rfl⟩
      obtain ⟨out, hout, hlen, hmemb, hidx⟩ :=
        ih (fun j hj => hrange j (by simp [hj]))
      refine ⟨a :: out, ?_, by simp [hlen], ?_, ?_⟩
      · simp [lookups, ha, hout]
      · intro x hx
        rcases List.mem_cons.mp hx with hx | hx
        · subst hx
          rcases List.getElem?_eq_some.mp ha with ⟨hlt, hget⟩
          rw [← hget]
          exact List.getElem_mem hlt
        · exact hmemb x hx
      · intro j hj
        cases j with
        | zero => simp [ha]
        | succ j =>
            simp only [List.getElem?_cons_succ, List.getD_cons_succ]
            exact hidx j (by simpa using hj)

/-- C9: when batchSize ≤ length, for every draw numpy can produce
(batchSize distinct in-range indices) sample succeeds and returns the
batchSize items stored at those distinct positions (entry j of the
result is the buffer entry at index draw[j], and the indices are
pairwise distinct), every one of them an element of the buffer; when
batchSize > length, sample fails — unconditionally in the draw, since
np.random.choice raises its size ValueError before anything is drawn. -/
theorem memory_sample_spec (m : Memory α) (batchSize : ℕ) :
    (∀ draw : List ℕ, draw.length = batchSize → draw.Nodup →
      (∀ i ∈ draw, i < m.mem.length) → batchSize ≤ m.mem.length →
      ∃ out : List α, m.sample batchSize draw = some out ∧
        out.length = batchSize ∧ (∀ x ∈ out, x ∈ m.mem) ∧
        (∀ j : ℕ, j < batchSize → out[j]? = m.mem[draw.getD j 0]?)) ∧
    (m.mem.length < batchSize →
      ∀ draw : List ℕ, m.sample batchSize draw = none) := by
  constructor
  · intro draw hlen _hnodup hrange hle
    obtain ⟨out, hout, hl, hmemb, hidx⟩ := lookups_of_inRange m.mem draw hrange
    exact ⟨out, by simp [Memory.sample, hle, hout], by omega,
      hmemb, fun j hj => hidx j (by omega)⟩
  · intro hgt draw
    simp [Memory.sample, Nat.not_le.mpr hgt]

/-- Witness for C9, exercising both halves: a three-item memory sampled
with a valid two-index draw succeeds, and an oversized request of four
fails whatever index list the generator would have produced. -/
theorem memory_sample_spec_witness :
    (∃ out : List ℕ,
        (Memory.mk 5 [7, 8, 9] : Memory ℕ).sample 2 [2, 0] = some out ∧
        out.length = 2 ∧ (∀ x ∈ out, x ∈ (Memory.mk 5 [7, 8, 9] : Memory ℕ).mem) ∧
        (∀ j : ℕ, j < 2 → out[j]? =
          (Memory.mk 5 [7, 8, 9] : Memory ℕ).mem[[2, 0].getD j 0]?)) ∧
    (Memory.mk 5 [7, 8, 9] : Memory ℕ).sample 4 [0, 1, 2, 0] = none :=
  ⟨(memory_sample_spec (Memory.mk 5 [7, 8, 9]) 2).1 [2, 0] (by decide)
      (by decide) (by decide) (by decide),
    (memory_sample_spec (Memory.mk 5 [7, 8, 9]) 4).2 (by decide) [0, 1, 2, 0]⟩

lemma rewardStep_shift (cfg : RLConfig) (targets : Option (String → ℕ → Option ℚ))
    (currentStep : ℕ) (action last_action : Option ActionTuple)
    (reward : ℚ) (pc : BusVoltages × BusVoltages) :
    rewardStep cfg targets currentStep action last_action reward pc =
      reward + rewardStep cfg targets currentStep action last_action 0 pc := by
  simp only [rewardStep]
  split_ifs <;> ring

lemma foldl_shift (f : ℚ → β → ℚ) (hf : ∀ r b, f r b = r + f 0 b) :
    ∀ (l : List β) (r : ℚ), l.foldl f r = r + l.foldl f 0
  | [], r => by simp
  | b :: l, r => by
    rw [List.foldl_cons, List.foldl_cons, foldl_shift f hf l (f r b),
      foldl_shift f hf l (f 0 b), hf r b]
    ring

lemma rewardStep_undone_split (cfg : RLConfig)
    (targets : Option (String → ℕ → Option ℚ)) (currentStep : ℕ)
    (action last_action : Option ActionTuple) (pc : BusVoltages × BusVoltages)
    (h : check_action_undone last_action action = true) :
    rewardStep cfg targets currentStep action last_action 0 pc =
      rewardStep cfg targets currentStep action none 0 pc +
        cfg.action_undone_penalty := by
  have hnone : check_action_undone none action = false := by
    cases action <;> rfl
  simp [rewardStep, h, hnone]

/-- C10: when the chosen action reverses the previous one, the
action-undone penalty is added once per positionally paired bus reading,
so the total equals the reward computed with no undone detection plus
(number of zipped pairs) × penalty; with zero paired readings no undone
penalty is added. -/
theorem action_undone_penalty_per_bus (cfg : RLConfig)
    (targets : Option (String → ℕ → Option ℚ)) (currentStep : ℕ)
    (previous_state current_state : List BusVoltages)
    (action last_action : Option ActionTuple)
    (h : check_action_undone last_action action = true) :
    calculate_reward cfg targets currentStep previous_state current_state
        action last_action =
      calculate_reward cfg targets currentStep previous_state current_state
          action none +
        ((min previous_state.length current_state.length : ℕ) : ℚ) *
          cfg.action_undone_penalty := by
  have hlen : (previous_state.zip current_state).length =
      min previous_state.length current_state.length := by
    rw [List.length_zip, inf_eq_min]
  rw [calculate_reward, calculate_reward, ← hlen]
  generalize previous_state.zip current_state = L
  induction L with
  | nil => simp
  | cons pc L ih =>
      rw [List.foldl_cons, List.foldl_cons,
        foldl_shift _ (rewardStep_shift cfg targets currentStep action last_action) L,
        foldl_shift _ (rewardStep_shift cfg targets currentStep action none) L]
      have hstep := rewardStep_undone_split cfg targets currentStep action
        last_action pc h
      rw [foldl_shift _ (rewardStep_shift cfg targets currentStep action last_action) L 0,
        foldl_shift _ (rewardStep_shift cfg targets currentStep action none) L 0] at ih
      rw [hstep]
      simp only [List.length_cons]
      push_cast
      linarith [ih]

/-- Witness for C10 on a concrete two-bus reading with a tap-up followed
by a tap-down on the same transformer. -/
theorem action_undone_penalty_per_bus_witness :
    check_action_undone (some ⟨"change_tap", "T1", ActionParam.tapUp⟩)
        (some ⟨"change_tap", "T1", ActionParam.tapDown⟩) = true ∧
      calculate_reward theConfig none 1
          [⟨"b1", [1]⟩, ⟨"b2", [1]⟩] [⟨"b1", [1]⟩, ⟨"b2", [1]⟩]
          (some ⟨"change_tap", "T1", ActionParam.tapDown⟩)
          (some ⟨"change_tap", "T1", ActionParam.tapUp⟩) =
        calculate_reward theConfig none 1
            [⟨"b1", [1]⟩, ⟨"b2", [1]⟩] [⟨"b1", [1]⟩, ⟨"b2", [1]⟩]
            (some ⟨"change_tap", "T1", ActionParam.tapDown⟩) none +
          ((min 2 2 : ℕ) : ℚ) * theConfig.action_undone_penalty :=
  ⟨by decide,
    action_undone_penalty_per_bus theConfig none 1
      [⟨"b1", [1]⟩, ⟨"b2", [1]⟩] [⟨"b1", [1]⟩, ⟨"b2", [1]⟩]
      (some ⟨"change_tap", "T1", ActionParam.tapDown⟩)
      (some ⟨"change_tap", "T1", ActionParam.tapUp⟩) (by decide)⟩

/-- C4 counterexample: one bus at rounded mean 1.1 before and after
(distance to the default target 1 unchanged), outside the band
[0.92, 1.05], with the no-op action: the code adds the out-of-band
penalty AND the stand-still reward (total -0.9), so the bus contribution
is not the out-of-band penalty alone (-1) as the claim states. -/
theorem reward_unchanged_branch_cex :
    calculate_reward theConfig none 1 [⟨"b1", [11/10]⟩] [⟨"b1", [11/10]⟩]
        none none =
      theConfig.out_of_limits_penalty +
        theConfig.stand_still_reward_out_of_target ∧
    calculate_reward theConfig none 1 [⟨"b1", [11/10]⟩] [⟨"b1", [11/10]⟩]
        none none ≠ theConfig.out_of_limits_penalty := by
  have hm : mean [11 / 10] = 11 / 10 := by norm_num [mean]
  have hr : round3 (11 / 10) = 11 / 10 := by norm_num [round3, roundHalfEven]
  constructor <;>
  · simp only [calculate_reward, List.zip_cons_cons, List.zip_nil_right,
      List.foldl_cons, List.foldl_nil, rewardStep, resolveTarget,
      check_action_undone, outOfLimits, theConfig, hm, hr]
    norm_num

/-- C4 amended: for a bus whose rounded distance to target is unchanged
(and no action-undone detection fires), the contribution is the SUM of an
out-of-band penalty (when outside the limits, else nothing) and the
stand-still reward (no-op) or meaningless-action penalty (otherwise); the
two parts are independent, not mutually exclusive. -/
theorem reward_unchanged_branch (cfg : RLConfig)
    (targets : Option (String → ℕ → Option ℚ)) (currentStep : ℕ)
    (pb cb : BusVoltages) (action last_action : Option ActionTuple)
    (hunch : |resolveTarget cfg targets currentStep cb.bus -
        round3 (mean pb.voltages)| =
      |resolveTarget cfg targets currentStep cb.bus -
        round3 (mean cb.voltages)|)
    (hnoundone : check_action_undone last_action action = false) :
    calculate_reward cfg targets currentStep [pb] [cb] action last_action =
      (if outOfLimits cfg (resolveTarget cfg targets currentStep cb.bus)
          (round3 (mean cb.voltages)) then cfg.out_of_limits_penalty else 0) +
        (if action = none then cfg.stand_still_reward_out_of_target
          else cfg.meaningless_action_penalty) := by
  have h1 : ¬(|resolveTarget cfg targets currentStep cb.bus -
      round3 (mean pb.voltages)| <
        |resolveTarget cfg targets currentStep cb.bus -
          round3 (mean cb.voltages)|) := by
    rw [hunch]
    exact lt_irrefl _
  have h2 : ¬(|resolveTarget cfg targets currentStep cb.bus -
      round3 (mean pb.voltages)| >
        |resolveTarget cfg targets currentStep cb.bus -
          round3 (mean cb.voltages)|) := by
    rw [hunch]
    exact lt_irrefl _
  simp only [calculate_reward, List.zip_cons_cons, List.zip_nil_right,
    List.foldl_cons, List.foldl_nil, rewardStep, hnoundone, h1, h2,
    if_false, Bool.false_eq_true]
  split_ifs <;> ring

/-- Witness for C4 amended at the counterexample input. -/
theorem reward_unchanged_branch_witness :
    (|resolveTarget theConfig none 1 "b1" - round3 (mean [11/10])| =
        |resolveTarget theConfig none 1 "b1" - round3 (mean [11/10])|) ∧
      calculate_reward theConfig none 1 [⟨"b1", [11/10]⟩] [⟨"b1", [11/10]⟩]
          none none =
        (if outOfLimits theConfig (resolveTarget theConfig none 1 "b1")
            (round3 (mean [11/10])) then theConfig.out_of_limits_penalty
          else 0) +
          (if (none : Option ActionTuple) = none then
            theConfig.stand_still_reward_out_of_target
          else theConfig.meaningless_action_penalty) :=
  ⟨rfl, reward_unchanged_branch theConfig none 1 ⟨"b1", [11/10]⟩
    ⟨"b1", [11/10]⟩ none none rfl rfl⟩

/-- C5 counterexample: two snapshots with identical capacitor, switch,
transformer, load, generator, vsource and isource categories but
different bus voltage readings compare UNEQUAL — State.__eq__ does
compare the bus category (rounded mean voltage), so equality is not
voltage-blind as claimed. -/
theorem state_eq_ignores_voltages_cex :
    voltCexA.capacitors = voltCexB.capacitors ∧
      voltCexA.switches = voltCexB.switches ∧
      voltCexA.transformers = voltCexB.transformers ∧
      voltCexA.loads = voltCexB.loads ∧
      voltCexA.generators = voltCexB.generators ∧
      voltCexA.vsources = voltCexB.vsources ∧
      voltCexA.isources = voltCexB.isources ∧
      State.eq voltCexA voltCexB = some false := by
  have h1 : round3 (mean [(1 : ℚ)]) = 1 := by
    norm_num [round3, roundHalfEven, mean]
  have h2 : round3 (mean [(2 : ℚ)]) = 2 := by
    norm_num [round3, roundHalfEven, mean]
  have h12 : (1 : ℚ) ≠ 2 := by norm_num
  refine ⟨rfl, rfl, rfl, rfl, rfl, rfl, rfl, ?_⟩
  simp [State.eq, voltCexA, voltCexB, seqCats, categoryEq, categoryLoop,
    findByName, Capacitor.eq, Bus.eq, h1, h2, h12]

/-- C6 counterexample: two snapshots that differ in exactly one scalar of
one non-voltage entity — the load's reactive power kvar — still compare
EQUAL, because Load.__eq__ compares only the name and kw. -/
theorem state_eq_scalar_mismatch_cex :
    loadCexA ≠ loadCexB ∧ State.eq loadCexA loadCexB = some true := by
  constructor
  · intro h
    have h2 := congrArg State.loads h
    simp only [loadCexA, loadCexB, List.cons.injEq, Load.mk.injEq,
      and_true, true_and] at h2
    norm_num at h2
  · norm_num [State.eq, loadCexA, loadCexB, seqCats, categoryEq,
      categoryLoop, findByName, Load.eq]

/-- C7 counterexample: with duplicate names in a category the name lookup
always returns the first match, so a snapshot holding two same-named
capacitors with different states is NOT equal to itself (reflexivity
fails), and dupCexA equals dupCexB while dupCexB does not equal dupCexA
though both calls return a result (symmetry fails). -/
theorem state_eq_refl_symm_cex :
    State.eq dupCexB dupCexB = some false ∧
      State.eq dupCexA dupCexB = some true ∧
      State.eq dupCexB dupCexA = some false := by
  refine ⟨?_, ?_, ?_⟩ <;>
    simp [State.eq, dupCexA, dupCexB, seqCats, categoryEq, categoryLoop,
      findByName, Capacitor.eq]

lemma seqCats_cons_true (cs : List (Option Bool)) :
    seqCats (some true :: cs) = seqCats cs := rfl

lemma seqCats_cons_false (cs : List (Option Bool)) :
    seqCats (some false :: cs) = some false := rfl

lemma seqCats_cons_none (cs : List (Option Bool)) :
    seqCats (none :: cs) = none := rfl

lemma seqCats_singleton (c : Option Bool) : seqCats [c] = c := by
  cases c with
  | none => rfl
  | some b => cases b <;> rfl

lemma seqCats_true_of_mem :
    ∀ (cs : List (Option Bool)), seqCats cs = some true →
      ∀ c ∈ cs, c = some true
  | [], _, c, hc => absurd hc (List.not_mem_nil c)
  | c :: cs, h, d, hd => by
    have hcval : c = some true := by
      cases c with
      | none => rw [seqCats_cons_none] at h; exact absurd h (by simp)
      | some b =>
        cases b with
        | false => rw [seqCats_cons_false] at h; exact absurd h (by simp)
        | true => rfl
    rcases List.mem_cons.mp hd with rfl | hd'
    · exact hcval
    · rw [hcval, seqCats_cons_true] at h
      exact seqCats_true_of_mem cs h d hd'

lemma categoryLoop_true {E : Type} (gn : E → String) (eqE : E → E → Option Bool)
    (other : List E) : ∀ (self : List E),
      categoryLoop gn eqE other self = some true →
      ∀ e ∈ self, ∃ o, findByName gn (gn e) other = some o ∧ eqE e o = some true
  | [], _, e, he => absurd he (List.not_mem_nil e)
  | f :: fs, h, e, he => by
    rw [categoryLoop] at h
    cases hfind : findByName gn (gn f) other with
    | none => simp [hfind] at h
    | some o =>
      cases heq : eqE f o with
      | none => simp [hfind, heq] at h
      | some b =>
        cases b with
        | false => simp [hfind, heq] at h
        | true =>
          simp only [hfind, heq] at h
          rcases List.mem_cons.mp he with rfl | he'
          · exact ⟨o, hfind, heq⟩
          · exact categoryLoop_true gn eqE other fs h e he'

lemma categoryLoop_of_forall {E : Type} (gn : E → String)
    (eqE : E → E → Option Bool) (other : List E) : ∀ (self : List E),
      (∀ e ∈ self, ∃ o, findByName gn (gn e) other = some o ∧ eqE e o = some true) →
      categoryLoop gn eqE other self = some true
  | [], _ => rfl
  | f :: fs, h => by
    obtain ⟨o, hfind, heq⟩ := h f (List.mem_cons_self f fs)
    have ih := categoryLoop_of_forall gn eqE other fs
      (fun e he => h e (List.mem_cons_of_mem f he))
    rw [categoryLoop]
    simp [hfind, heq, ih]

lemma categoryLoop_false {E : Type} (gn : E → String) (eqE : E → E → Option Bool)
    (other : List E) : ∀ (self : List E),
      categoryLoop gn eqE other self = some false →
      ∃ e ∈ self, ∃ o, findByName gn (gn e) other = some o ∧ eqE e o = some false
  | [], h => by simp [categoryLoop] at h
  | f :: fs, h => by
    rw [categoryLoop] at h
    cases hfind : findByName gn (gn f) other with
    | none => simp [hfind] at h
    | some o =>
      cases heq : eqE f o with
      | none => simp [hfind, heq] at h
      | some b =>
        cases b with
        | false => exact ⟨f, List.mem_cons_self f fs, o, hfind, heq⟩
        | true =>
          simp only [hfind, heq] at h
          obtain ⟨e, he, o', hfind', heq'⟩ := categoryLoop_false gn eqE other fs h
          exact ⟨e, List.mem_cons_of_mem f he, o', hfind', heq'⟩

lemma categoryLoop_other_nil {E : Type} (gn : E → String)
    (eqE : E → E → Option Bool) :
    ∀ (self : List E), self ≠ [] → categoryLoop gn eqE [] self = none
  | [], h => absurd rfl h
  | f :: fs, _ => by
    rw [categoryLoop]
    simp [findByName]

lemma categoryEq_true {E : Type} {gn : E → String} {eqE : E → E → Option Bool}
    {self other : List E} (h : categoryEq gn eqE self other = some true) :
    ∀ e ∈ self, ∃ o, findByName gn (gn e) other = some o ∧ eqE e o = some true := by
  cases self with
  | nil => intro e he; exact absurd he (List.not_mem_nil e)
  | cons f fs =>
    rw [categoryEq] at h
    simp only [List.isEmpty_cons, Bool.false_eq_true, if_false] at h
    exact categoryLoop_true gn eqE other (f :: fs) h

lemma categoryEq_true_of_empty {E : Type} {gn : E → String}
    {eqE : E → E → Option Bool} {other : List E}
    (h : categoryEq gn eqE [] other = some true) : other = [] := by
  rw [categoryEq] at h
  cases other with
  | nil => rfl
  | cons o os => simp at h

lemma categoryEq_false {E : Type} {gn : E → String} {eqE : E → E → Option Bool}
    {self other : List E} (h : categoryEq gn eqE self other = some false) :
    (self = [] ∧ other ≠ []) ∨
      ∃ e ∈ self, ∃ o, findByName gn (gn e) other = some o ∧ eqE e o = some false := by
  cases self with
  | nil =>
    left
    refine ⟨rfl, ?_⟩
    intro hother
    rw [hother, categoryEq] at h
    simp at h
  | cons f fs =>
    right
    rw [categoryEq] at h
    simp only [List.isEmpty_cons, Bool.false_eq_true, if_false] at h
    exact categoryLoop_false gn eqE other (f :: fs) h

lemma findByName_self {E : Type} (gn : E → String) :
    ∀ (l : List E), (l.map gn).Nodup → ∀ e ∈ l, findByName gn (gn e) l = some e
  | [], _, e, he => absurd he (List.not_mem_nil e)
  | f :: fs, hnod, e, he => by
    rw [List.map_cons, List.nodup_cons] at hnod
    obtain ⟨hniff, hnod'⟩ := hnod
    rcases List.mem_cons.mp he with rfl | he'
    · unfold findByName
      rw [List.find?_cons_of_pos]
      simp
    · have hne : gn f ≠ gn e := fun hc => hniff (hc ▸ List.mem_map_of_mem gn he')
      have hstep : findByName gn (gn e) (f :: fs) = findByName gn (gn e) fs := by
        unfold findByName
        rw [List.find?_cons_of_neg]
        simp [hne]
      rw [hstep]
      exact findByName_self gn fs hnod' e he'

lemma categoryEq_refl {E : Type} (gn : E → String) (eqE : E → E → Option Bool)
    (l : List E) (hnod : (l.map gn).Nodup)
    (hrefl : ∀ e ∈ l, eqE e e = some true) :
    categoryEq gn eqE l l = some true := by
  cases hl : l with
  | nil => rfl
  | cons f fs =>
    rw [categoryEq]
    simp only [List.isEmpty_cons, Bool.false_eq_true, if_false]
    refine categoryLoop_of_forall gn eqE (f :: fs) (f :: fs) (fun e he => ?_)
    exact ⟨e, findByName_self gn (f :: fs) (hl ▸ hnod) e he, hrefl e (hl ▸ he)⟩

lemma categoryEq_not_false_of_true {E : Type} {gn : E → String}
    {eqE : E → E → Option Bool} (hsymm : ∀ a b, eqE a b = eqE b a)
    {self other : List E} (hnod : (other.map gn).Nodup)
    (ht : categoryEq gn eqE self other = some true)
    (hf : categoryEq gn eqE other self = some false) : False := by
  rcases categoryEq_false hf with ⟨hone, hstwo⟩ | ⟨e, he, o, hfind, heq⟩
  · rw [hone] at ht
    cases hs : self with
    | nil => exact hstwo hs
    | cons f fs =>
      rw [hs, categoryEq] at ht
      simp only [List.isEmpty_cons, Bool.false_eq_true, if_false] at ht
      rw [categoryLoop_other_nil gn eqE (f :: fs) (by simp)] at ht
      simp at ht
  · have ho_mem : o ∈ self := List.mem_of_find?_eq_some hfind
    have hgno : gn o = gn e := by
      have := List.find?_some hfind
      simpa using this
    obtain ⟨m, hfindm, heqm⟩ := categoryEq_true ht o ho_mem
    rw [hgno] at hfindm
    have hm_mem : m ∈ other := List.mem_of_find?_eq_some hfindm
    have hgnm : gn m = gn e := by
      have := List.find?_some hfindm
      simpa using this
    have hme : m = e := List.inj_on_of_nodup_map hnod hm_mem he hgnm
    rw [hme, hsymm o e, heq] at heqm
    simp at heqm

lemma capacitor_eq_comm (a b : Capacitor) : Capacitor.eq a b = Capacitor.eq b a := by
  unfold Capacitor.eq
  congr 1
  rw [decide_eq_decide]
  constructor <;> intro h <;> exact ⟨h.1.symm, h.2.symm⟩

lemma switch_eq_comm (a b : Switch) : Switch.eq a b = Switch.eq b a := by
  unfold Switch.eq
  congr 1
  rw [decide_eq_decide]
  constructor <;> intro h <;> exact ⟨h.1.symm, h.2.symm⟩

lemma transformer_eq_comm (a b : Transformer) :
    Transformer.eq a b = Transformer.eq b a := by
  unfold Transformer.eq
  congr 1
  rw [decide_eq_decide]
  constructor <;> intro h <;> exact ⟨h.1.symm, h.2.symm⟩

lemma load_eq_comm (a b : Load) : Load.eq a b = Load.eq b a := by
  unfold Load.eq
  congr 1
  rw [decide_eq_decide]
  constructor <;> intro h <;> exact ⟨h.1.symm, h.2.symm⟩

lemma generator_eq_comm (a b : Generator) : Generator.eq a b = Generator.eq b a := by
  unfold Generator.eq
  congr 1
  rw [decide_eq_decide]
  constructor <;> intro h <;>
    exact ⟨h.1.symm, h.2.1.symm, h.2.2.1.symm, h.2.2.2.symm⟩

lemma vsource_eq_comm (a b : VSource) : VSource.eq a b = VSource.eq b a := by
  unfold VSource.eq
  congr 1
  rw [decide_eq_decide]
  constructor <;> intro h <;> exact ⟨h.1.symm, h.2.symm⟩

lemma isource_eq_comm (a b : ISource) : ISource.eq a b = ISource.eq b a := by
  unfold ISource.eq
  congr 1
  rw [decide_eq_decide]
  constructor <;> intro h <;> exact ⟨h.1.symm, h.2.symm⟩

lemma bus_eq_comm (a b : Bus) : Bus.eq a b = Bus.eq b a := by
  unfold Bus.eq
  by_cases h : a.vpu = [] ∨ b.vpu = []
  · rw [if_pos h, if_pos (Or.symm h)]
  · rw [if_neg h, if_neg (fun hc => h (Or.symm hc))]
    congr 1
    rw [decide_eq_decide]
    constructor <;> intro hh <;> exact ⟨hh.1.symm, hh.2.symm⟩

lemma seqCats_agree :
    ∀ (cs ds : List (Option Bool)), List.Forall₂ optCompat cs ds →
      ∀ r1 r2 : Bool, seqCats cs = some r1 → seqCats ds = some r2 → r1 = r2
  | [], [], _, r1, r2, h1, h2 => by
    simp only [seqCats, Option.some.injEq] at h1 h2
    rw [← h1, ← h2]
  | c :: cs, d :: ds, hf, r1, r2, h1, h2 => by
    rcases hf with _ | ⟨hcd, hf'⟩
    cases c with
    | none => rw [seqCats_cons_none] at h1; exact absurd h1 (by simp)
    | some cb =>
      cases cb with
      | true =>
        rw [seqCats_cons_true] at h1
        cases d with
        | none => rw [seqCats_cons_none] at h2; exact absurd h2 (by simp)
        | some db =>
          cases db with
          | true =>
            rw [seqCats_cons_true] at h2
            exact seqCats_agree cs ds hf' r1 r2 h1 h2
          | false => exact absurd rfl (hcd.1 rfl)
      | false =>
        rw [seqCats_cons_false] at h1
        cases d with
        | none => rw [seqCats_cons_none] at h2; exact absurd h2 (by simp)
        | some db =>
          cases db with
          | true => exact absurd rfl (hcd.2 rfl)
          | false =>
            rw [seqCats_cons_false] at h2
            have e1 : r1 = false := by simpa using h1.symm
            have e2 : r2 = false := by simpa using h2.symm
            rw [e1, e2]

/-- C7 amended: snapshot equality is reflexive and symmetric PROVIDED
entity names are pairwise distinct within each category (and, for
reflexivity, every bus has a non-empty voltage list): a snapshot equals
itself, and whenever both evaluation orders return a result the results
agree.  With duplicate names both properties fail
(state_eq_refl_symm_cex). -/
theorem state_eq_refl_symm_unique :
    (∀ s : State, NamesUnique s → BusesNonempty s → State.eq s s = some true) ∧
      (∀ a b : State, NamesUnique a → NamesUnique b → ∀ r1 r2 : Bool,
        State.eq a b = some r1 → State.eq b a = some r2 → r1 = r2) := by
  constructor
  · intro s hu hb
    obtain ⟨u1, u2, u3, u4, u5, u6, u7, u8⟩ := hu
    rw [State.eq]
    rw [categoryEq_refl _ _ _ u1 (fun e _ => by simp [Capacitor.eq]),
      categoryEq_refl _ _ _ u2 (fun e _ => by simp [Switch.eq]),
      categoryEq_refl _ _ _ u3 (fun e _ => by simp [Transformer.eq]),
      categoryEq_refl _ _ _ u4 (fun e _ => by simp [Load.eq]),
      categoryEq_refl _ _ _ u5 (fun e _ => by simp [Generator.eq]),
      categoryEq_refl _ _ _ u6 (fun e _ => by simp [ISource.eq]),
      categoryEq_refl _ _ _ u7 (fun e _ => by simp [VSource.eq]),
      categoryEq_refl _ _ _ u8 (fun e he => by simp [Bus.eq, hb e he])]
    rfl
  · intro a b hua hub r1 r2 h1 h2
    obtain ⟨ua1, ua2, ua3, ua4, ua5, ua6, ua7, ua8⟩ := hua
    obtain ⟨ub1, ub2, ub3, ub4, ub5, ub6, ub7, ub8⟩ := hub
    rw [State.eq] at h1 h2
    refine seqCats_agree _ _ ?_ r1 r2 h1 h2
    refine List.Forall₂.cons ⟨fun ht hf => ?_, fun ht hf => ?_⟩ ?_
    · exact categoryEq_not_false_of_true capacitor_eq_comm ub1 ht hf
    · exact categoryEq_not_false_of_true capacitor_eq_comm ua1 ht hf
    refine List.Forall₂.cons ⟨fun ht hf => ?_, fun ht hf => ?_⟩ ?_
    · exact categoryEq_not_false_of_true switch_eq_comm ub2 ht hf
    · exact categoryEq_not_false_of_true switch_eq_comm ua2 ht hf
    refine List.Forall₂.cons ⟨fun ht hf => ?_, fun ht hf => ?_⟩ ?_
    · exact categoryEq_not_false_of_true transformer_eq_comm ub3 ht hf
    · exact categoryEq_not_false_of_true transformer_eq_comm ua3 ht hf
    refine List.Forall₂.cons ⟨fun ht hf => ?_, fun ht hf => ?_⟩ ?_
    · exact categoryEq_not_false_of_true load_eq_comm ub4 ht hf
    · exact categoryEq_not_false_of_true load_eq_comm ua4 ht hf
    refine List.Forall₂.cons ⟨fun ht hf => ?_, fun ht hf => ?_⟩ ?_
    · exact categoryEq_not_false_of_true generator_eq_comm ub5 ht hf
    · exact categoryEq_not_false_of_true generator_eq_comm ua5 ht hf
    refine List.Forall₂.cons ⟨fun ht hf => ?_, fun ht hf => ?_⟩ ?_
    · exact categoryEq_not_false_of_true isource_eq_comm ub6 ht hf
    · exact categoryEq_not_false_of_true isource_eq_comm ua6 ht hf
    refine List.Forall₂.cons ⟨fun ht hf => ?_, fun ht hf => ?_⟩ ?_
    · exact categoryEq_not_false_of_true vsource_eq_comm ub7 ht hf
    · exact categoryEq_not_false_of_true vsource_eq_comm ua7 ht hf
    refine List.Forall₂.cons ⟨fun ht hf => ?_, fun ht hf => ?_⟩ List.Forall₂.nil
    · exact categoryEq_not_false_of_true bus_eq_comm ub8 ht hf
    · exact categoryEq_not_false_of_true bus_eq_comm ua8 ht hf

/-- Witness for C7 amended: the single-capacitor snapshot has unique
names, equals itself, and the symmetry transfer applied to it. -/
theorem state_eq_refl_symm_unique_witness :
    State.eq dupCexA dupCexA = some true ∧ (true : Bool) = true :=
  have hu : NamesUnique dupCexA := by
    constructor
    · decide
    · exact ⟨by decide, by decide, by decide, by decide, by decide, by decide,
        by decide⟩
  have hb : BusesNonempty dupCexA := by
    intro bs hbs
    simp [dupCexA] at hbs
  have hrefl : State.eq dupCexA dupCexA = some true :=
    state_eq_refl_symm_unique.1 dupCexA hu hb
  ⟨hrefl, state_eq_refl_symm_unique.2 dupCexA dupCexA hu hu true true hrefl hrefl⟩

/-- C5 amended: when the seven non-voltage categories all compare as
equal, State.__eq__ is decided exactly by the bus-category comparison
(name-matched, 3-decimal rounded mean voltage), so bus voltages DO
participate in snapshot equality. -/
theorem state_eq_depends_on_buses (a b : State)
    (h1 : categoryEq Capacitor.name Capacitor.eq a.capacitors b.capacitors = some true)
    (h2 : categoryEq Switch.name Switch.eq a.switches b.switches = some true)
    (h3 : categoryEq Transformer.name Transformer.eq a.transformers b.transformers = some true)
    (h4 : categoryEq Load.name Load.eq a.loads b.loads = some true)
    (h5 : categoryEq Generator.name Generator.eq a.generators b.generators = some true)
    (h6 : categoryEq ISource.name ISource.eq a.isources b.isources = some true)
    (h7 : categoryEq VSource.name VSource.eq a.vsources b.vsources = some true) :
    State.eq a b = categoryEq Bus.name Bus.eq a.buses b.buses := by
  rw [State.eq, h1, h2, h3, h4, h5, h6, h7, seqCats_cons_true,
    seqCats_cons_true, seqCats_cons_true, seqCats_cons_true, seqCats_cons_true,
    seqCats_cons_true, seqCats_cons_true, seqCats_singleton]

/-- Witness for C5 amended at the voltage counterexample pair. -/
theorem state_eq_depends_on_buses_witness :
    State.eq voltCexA voltCexB =
      categoryEq Bus.name Bus.eq voltCexA.buses voltCexB.buses :=
  state_eq_depends_on_buses voltCexA voltCexB (by decide) (by decide)
    (by decide) (by decide) (by decide) (by decide) (by decide)

/-- C6 amended: snapshot equality (a true result) forces every
name-matched pair to agree on the scalars its class actually compares:
capacitor states, switch state, transformer tap, load kw (load kvar is
NOT among them), generator kw/kvar/pf, isource amps and vsource vpu;
contrapositively, a mismatch in any of those compared scalars makes the
snapshots unequal. -/
theorem state_eq_compared_scalars (a b : State)
    (h : State.eq a b = some true) :
    (∀ e ∈ a.capacitors, ∀ o, findByName Capacitor.name e.name b.capacitors = some o →
      e.name = o.name ∧ e.states = o.states) ∧
    (∀ e ∈ a.switches, ∀ o, findByName Switch.name e.name b.switches = some o →
      e.name = o.name ∧ e.state = o.state) ∧
    (∀ e ∈ a.transformers, ∀ o, findByName Transformer.name e.name b.transformers = some o →
      e.name = o.name ∧ e.tap = o.tap) ∧
    (∀ e ∈ a.loads, ∀ o, findByName Load.name e.name b.loads = some o →
      e.name = o.name ∧ e.kw = o.kw) ∧
    (∀ e ∈ a.generators, ∀ o, findByName Generator.name e.name b.generators = some o →
      e.name = o.name ∧ e.kw = o.kw ∧ e.kvar = o.kvar ∧ e.pf = o.pf) ∧
    (∀ e ∈ a.isources, ∀ o, findByName ISource.name e.name b.isources = some o →
      e.name = o.name ∧ e.amps = o.amps) ∧
    (∀ e ∈ a.vsources, ∀ o, findByName VSource.name e.name b.vsources = some o →
      e.name = o.name ∧ e.vpu = o.vpu) := by
  rw [State.eq] at h
  have hc := seqCats_true_of_mem _ h
  have g1 := hc _ (by simp : categoryEq Capacitor.name Capacitor.eq a.capacitors b.capacitors ∈ _)
  have g2 := hc _ (by simp : categoryEq Switch.name Switch.eq a.switches b.switches ∈ _)
  have g3 := hc _ (by simp : categoryEq Transformer.name Transformer.eq a.transformers b.transformers ∈ _)
  have g4 := hc _ (by simp : categoryEq Load.name Load.eq a.loads b.loads ∈ _)
  have g5 := hc _ (by simp : categoryEq Generator.name Generator.eq a.generators b.generators ∈ _)
  have g6 := hc _ (by simp : categoryEq ISource.name ISource.eq a.isources b.isources ∈ _)
  have g7 := hc _ (by simp : categoryEq VSource.name VSource.eq a.vsources b.vsources ∈ _)
  refine ⟨?_, ?_, ?_, ?_, ?_, ?_, ?_⟩
  · intro e he o hfind
    obtain ⟨o', hfind', heq'⟩ := categoryEq_true g1 e he
    rw [hfind] at hfind'
    cases hfind'
    simpa [Capacitor.eq] using heq'
  · intro e he o hfind
    obtain ⟨o', hfind', heq'⟩ := categoryEq_true g2 e he
    rw [hfind] at hfind'
    cases hfind'
    simpa [Switch.eq] using heq'
  · intro e he o hfind
    obtain ⟨o', hfind', heq'⟩ := categoryEq_true g3 e he
    rw [hfind] at hfind'
    cases hfind'
    simpa [Transformer.eq] using heq'
  · intro e he o hfind
    obtain ⟨o', hfind', heq'⟩ := categoryEq_true g4 e he
    rw [hfind] at hfind'
    cases hfind'
    simpa [Load.eq] using heq'
  · intro e he o hfind
    obtain ⟨o', hfind', heq'⟩ := categoryEq_true g5 e he
    rw [hfind] at hfind'
    cases hfind'
    simpa [Generator.eq] using heq'
  · intro e he o hfind
    obtain ⟨o', hfind', heq'⟩ := categoryEq_true g6 e he
    rw [hfind] at hfind'
    cases hfind'
    simpa [ISource.eq] using heq'
  · intro e he o hfind
    obtain ⟨o', hfind', heq'⟩ := categoryEq_true g7 e he
    rw [hfind] at hfind'
    cases hfind'
    simpa [VSource.eq] using heq'

/-- Witness for C6 amended at the kvar counterexample pair: equality
holds, so the matched load pair must agree on name and kw (and nothing
is claimed about kvar, which differs). -/
theorem state_eq_compared_scalars_witness :
    (⟨"l1", 10, 5⟩ : Load).name = (⟨"l1", 10, 7⟩ : Load).name ∧
      (⟨"l1", 10, 5⟩ : Load).kw = (⟨"l1", 10, 7⟩ : Load).kw :=
  (state_eq_compared_scalars loadCexA loadCexB
    (by norm_num [State.eq, loadCexA, loadCexB, seqCats, categoryEq,
      categoryLoop, findByName, Load.eq])).2.2.2.1
    ⟨"l1", 10, 5⟩ (by simp [loadCexA]) ⟨"l1", 10, 7⟩ (by decide)

lemma sum_sub_reduce_mean (A : Matrix (Fin r) (Fin c) ℝ) :
    (∑ i, ∑ j, (A i j - reduce_mean A)) = 0 := by
  rcases Nat.eq_zero_or_pos r with hr | hr
  · subst hr; simp
  rcases Nat.eq_zero_or_pos c with hc | hc
  · subst hc; simp
  have hcard : ((r : ℝ) * (c : ℝ)) ≠ 0 :=
    mul_ne_zero (Nat.cast_ne_zero.mpr hr.ne') (Nat.cast_ne_zero.mpr hc.ne')
  have hsplit : (∑ i : Fin r, ∑ j : Fin c, (A i j - reduce_mean A)) =
      (∑ i, ∑ j, A i j) - (∑ i : Fin r, ∑ j : Fin c, reduce_mean A) := by
    rw [← Finset.sum_sub_distrib]
    exact Finset.sum_congr rfl fun i _ => by rw [← Finset.sum_sub_distrib]
  rw [hsplit]
  have h1 : (∑ i : Fin r, ∑ j : Fin c, reduce_mean A) =
      (r : ℝ) * (c : ℝ) * reduce_mean A := by
    simp [Finset.sum_const, Finset.card_univ, mul_assoc]
  rw [h1, reduce_mean, mul_comm ((r : ℝ) * (c : ℝ)), div_mul_cancel₀ _ hcard,
    sub_self]

/-- C1 amended: the advantage centering is over the WHOLE batch tensor
(reduce_mean has no axis), so (a) for every batch the mean of Q - V over
all rows and actions is zero, and (b) the per-row centering claimed by
the spec holds exactly for one-row batches (the shape used by the
action-selection forward pass). -/
theorem dueling_centering_batchwise {inputSize outputSize : ℕ} :
    (∀ (r : ℕ) (p : NetworkParams inputSize outputSize) (sc : Scaler inputSize)
        (x : Matrix (Fin r) (Fin inputSize) ℝ),
      (∑ i, ∑ j, (model p sc x i j - value_layer_output p sc x i 0)) = 0) ∧
    (∀ (p : NetworkParams inputSize outputSize) (sc : Scaler inputSize)
        (x : Matrix (Fin 1) (Fin inputSize) ℝ) (i : Fin 1),
      rowMeanQminusV p sc x i = 0) := by
  constructor
  · intro r p sc x
    have hcong : (∑ i, ∑ j, (model p sc x i j - value_layer_output p sc x i 0)) =
        (∑ i, ∑ j, (advantage_layer_output p sc x i j -
          reduce_mean (advantage_layer_output p sc x))) := by
      refine Finset.sum_congr rfl fun i _ => Finset.sum_congr rfl fun j _ => ?_
      simp only [model]
      ring
    rw [hcong]
    exact sum_sub_reduce_mean _
  · intro p sc x i
    have hi : i = 0 := Subsingleton.elim i 0
    subst hi
    rw [rowMeanQminusV]
    have h1 := sum_sub_reduce_mean (advantage_layer_output p sc x)
    rw [Fin.sum_univ_one] at h1
    have hnum : (∑ j, (model p sc x 0 j - value_layer_output p sc x 0 0)) = 0 := by
      have hcong : (∑ j, (model p sc x 0 j - value_layer_output p sc x 0 0)) =
          (∑ j, (advantage_layer_output p sc x 0 j -
            reduce_mean (advantage_layer_output p sc x))) := by
        refine Finset.sum_congr rfl fun j _ => ?_
        simp only [model]
        ring
      rw [hcong]
      exact h1
    rw [hnum, zero_div]

lemma relu_zero : relu 0 = 0 := by simp [relu]

lemma relu_relu (x : ℝ) : relu (relu x) = relu x := by
  simp [relu, max_assoc]

lemma swish_zero : swish 0 = 0 := by simp [swish]

lemma swish_one_pos : 0 < swish 1 := by
  have h := Real.exp_pos (-1)
  rw [swish, sigmoid]
  positivity

lemma sum_mul_ind {n : ℕ} [NeZero n] (f : Fin n → ℝ) :
    (∑ k, f k * (if k = 0 then (1 : ℝ) else 0)) = f 0 := by
  have hcong : ∀ k ∈ Finset.univ,
      f k * (if k = 0 then (1 : ℝ) else 0) = if k = 0 then f k else 0 :=
    fun k _ => by rw [mul_ite, mul_one, mul_zero]
  rw [Finset.sum_congr rfl hcong, Finset.sum_ite_eq' Finset.univ (0 : Fin n) f]
  simp

lemma cex_hidden1 (r : ℕ) (X : Matrix (Fin r) (Fin 1) ℝ) (i : Fin r)
    (j : Fin 16) :
    hidden1 cexParams (idScaler 1) X i j =
      if j = 0 then relu (X i 0) else 0 := by
  rw [hidden1, dense_layer]
  have htr : ∀ k, (idScaler 1).transform X i k = X i k := fun k => by
    simp [Scaler.transform, idScaler]
  rw [Fin.sum_univ_one, htr 0]
  show relu (X i 0 * (if j = 0 then 1 else 0) + (0 : Fin 16 → ℝ) j) = _
  by_cases hj : j = 0
  · simp [hj]
  · simp [hj, relu_zero]

lemma cex_hidden2 (r : ℕ) (X : Matrix (Fin r) (Fin 1) ℝ) (i : Fin r)
    (j : Fin 32) :
    hidden2 cexParams (idScaler 1) X i j =
      if j = 0 then relu (X i 0) else 0 := by
  rw [hidden2, dense_layer]
  show relu ((∑ k, hidden1 cexParams (idScaler 1) X i k *
      (if j = 0 then (if k = 0 then (1 : ℝ) else 0) else 0)) +
      (0 : Fin 32 → ℝ) j) = _
  by_cases hj : j = 0
  · simp only [hj, if_true, Pi.zero_apply, add_zero]
    rw [sum_mul_ind (fun k => hidden1 cexParams (idScaler 1) X i k)]
    rw [cex_hidden1]
    simp [relu_relu]
  · simp [hj, relu_zero]

lemma cex_val (r : ℕ) (X : Matrix (Fin r) (Fin 1) ℝ) (i : Fin r) :
    value_layer_output cexParams (idScaler 1) X i 0 = 0 := by
  rw [value_layer_output]
  show swish ((∑ k, dense_layer (hidden2 cexParams (idScaler 1) X)
      (cexParams.w2) (cexParams.b2) relu i k * cexParams.w3 k 0) +
      cexParams.b3 0) = 0
  have hw3 : ∀ k, cexParams.w3 k (0 : Fin 1) = 0 := fun k => rfl
  have hsum : (∑ k : Fin 16, dense_layer (hidden2 cexParams (idScaler 1) X)
      (cexParams.w2) (cexParams.b2) relu i k * cexParams.w3 k 0) = 0 := by
    refine Finset.sum_eq_zero fun k _ => ?_
    rw [hw3 k, mul_zero]
  rw [hsum]
  show swish (0 + (0 : Fin 1 → ℝ) 0) = 0
  simpa using swish_zero

lemma cex_adv (r : ℕ) (X : Matrix (Fin r) (Fin 1) ℝ) (i : Fin r)
    (j : Fin 2) :
    advantage_layer_output cexParams (idScaler 1) X i j =
      swish (relu (X i 0)) := by
  rw [advantage_layer_output]
  have hal : ∀ k : Fin 16, dense_layer (hidden2 cexParams (idScaler 1) X)
      (cexParams.w4) (cexParams.b4) relu i k =
        if k = 0 then relu (X i 0) else 0 := by
    intro k
    rw [dense_layer]
    show relu ((∑ k2, hidden2 cexParams (idScaler 1) X i k2 *
        (if k = 0 then (if k2 = 0 then (1 : ℝ) else 0) else 0)) +
        (0 : Fin 16 → ℝ) k) = _
    by_cases hk : k = 0
    · simp only [hk, if_true, Pi.zero_apply, add_zero]
      rw [sum_mul_ind (fun k2 => hidden2 cexParams (idScaler 1) X i k2)]
      rw [cex_hidden2]
      simp [relu_relu]
    · simp [hk, relu_zero]
  rw [dense_layer]
  show swish ((∑ k, dense_layer (hidden2 cexParams (idScaler 1) X)
      (cexParams.w4) (cexParams.b4) relu i k *
      (if k = 0 then (1 : ℝ) else 0)) + (0 : Fin 2 → ℝ) j) = _
  rw [sum_mul_ind (fun k => dense_layer (hidden2 cexParams (idScaler 1) X)
    (cexParams.w4) (cexParams.b4) relu i k), hal 0]
  simp

lemma cex_adv_vals (i j : Fin 2) :
    advantage_layer_output cexParams (idScaler 1) cexInput i j =
      if i = 0 then 0 else swish 1 := by
  rw [cex_adv]
  by_cases hi : i = 0
  · simp [cexInput, hi, relu_zero, swish_zero]
  · have h1 : relu 1 = 1 := by norm_num [relu]
    simp [cexInput, hi, h1]

lemma cex_mean :
    reduce_mean (advantage_layer_output cexParams (idScaler 1) cexInput) =
      swish 1 / 2 := by
  rw [reduce_mean]
  simp only [Fin.sum_univ_two, cex_adv_vals]
  norm_num
  ring

lemma cex_model (i j : Fin 2) :
    model cexParams (idScaler 1) cexInput i j =
      (if i = 0 then 0 else swish 1) - swish 1 / 2 := by
  rw [model, cex_val, cex_adv_vals, cex_mean]
  ring

/-- C1 counterexample: a two-row batch on which the first row's mean over
the action dimension of (Q - V) is nonzero, because the code's
reduce_mean (no axis) centers the advantages with the other row's values
included. -/
theorem dueling_per_row_centering_cex :
    rowMeanQminusV cexParams (idScaler 1) cexInput 0 ≠ 0 := by
  have hs := swish_one_pos
  rw [rowMeanQminusV]
  simp only [Fin.sum_univ_two, cex_model, cex_val]
  norm_num
  linarith

lemma dense_layer_row {r r' n p : ℕ} (A : Matrix (Fin r) (Fin n) ℝ)
    (B : Matrix (Fin r') (Fin n) ℝ) (w : Matrix (Fin n) (Fin p) ℝ)
    (b : Fin p → ℝ) (act : ℝ → ℝ) (i : Fin r) (i' : Fin r')
    (h : ∀ k, A i k = B i' k) (j : Fin p) :
    dense_layer A w b act i j = dense_layer B w b act i' j := by
  rw [dense_layer, dense_layer]
  congr 2
  exact Finset.sum_congr rfl fun k _ => by rw [h k]

lemma hidden1_row (p : NetworkParams inputSize outputSize) (sc : Scaler inputSize)
    (X : Matrix (Fin r) (Fin inputSize) ℝ) (i : Fin r) (j : Fin 16) :
    hidden1 p sc (singleRow X i) 0 j = hidden1 p sc X i j := by
  rw [hidden1, hidden1]
  exact dense_layer_row _ _ _ _ _ _ _
    (fun k => by simp [Scaler.transform, singleRow]) j

lemma hidden2_row (p : NetworkParams inputSize outputSize) (sc : Scaler inputSize)
    (X : Matrix (Fin r) (Fin inputSize) ℝ) (i : Fin r) (j : Fin 32) :
    hidden2 p sc (singleRow X i) 0 j = hidden2 p sc X i j := by
  rw [hidden2, hidden2]
  exact dense_layer_row _ _ _ _ _ _ _ (fun k => hidden1_row p sc X i k) j

lemma value_layer_output_row (p : NetworkParams inputSize outputSize)
    (sc : Scaler inputSize) (X : Matrix (Fin r) (Fin inputSize) ℝ) (i : Fin r)
    (j : Fin 1) :
    value_layer_output p sc (singleRow X i) 0 j = value_layer_output p sc X i j := by
  rw [value_layer_output, value_layer_output]
  exact dense_layer_row _ _ _ _ _ _ _
    (fun k => dense_layer_row _ _ _ _ _ _ _
      (fun k2 => hidden2_row p sc X i k2) k) j

lemma advantage_layer_output_row (p : NetworkParams inputSize outputSize)
    (sc : Scaler inputSize) (X : Matrix (Fin r) (Fin inputSize) ℝ) (i : Fin r)
    (j : Fin outputSize) :
    advantage_layer_output p sc (singleRow X i) 0 j =
      advantage_layer_output p sc X i j := by
  rw [advantage_layer_output, advantage_layer_output]
  exact dense_layer_row _ _ _ _ _ _ _
    (fun k => dense_layer_row _ _ _ _ _ _ _
      (fun k2 => hidden2_row p sc X i k2) k) j

lemma model_single_relation (p : NetworkParams inputSize outputSize)
    (sc : Scaler inputSize) (X : Matrix (Fin r) (Fin inputSize) ℝ) (i : Fin r)
    (j : Fin outputSize) :
    model p sc X i j = model p sc (singleRow X i) 0 j +
      (reduce_mean (advantage_layer_output p sc (singleRow X i)) -
        reduce_mean (advantage_layer_output p sc X)) := by
  rw [model, model, value_layer_output_row, advantage_layer_output_row]
  ring

lemma min'_eq_of_sets {α : Type} [LinearOrder α] {s t : Finset α} (h : s = t)
    {hs : s.Nonempty} {ht : t.Nonempty} : s.min' hs = t.min' ht := by
  subst h
  rfl

lemma npArgmax_add_const {m : ℕ} [NeZero m] (v : Fin m → ℝ) (c : ℝ) :
    npArgmax (fun j => v j + c) = npArgmax v := by
  have hset : (Finset.univ.filter (fun j => ∀ k, v k + c ≤ v j + c)) =
      (Finset.univ.filter (fun j : Fin m => ∀ k, v k ≤ v j)) :=
    Finset.filter_congr fun j _ => by simp [add_le_add_iff_right]
  unfold npArgmax
  exact min'_eq_of_sets hset

/-- C3 amended: _train_network forwards the WHOLE batch of next states
through both networks, so target_i = reward_i + discount * (the
target-network forward of next_i alone, at the action the online network
picks for next_i alone, PLUS the batch-vs-single advantage-mean offset
of the target network).  The selected action agrees with the per-sample
selection (a per-row constant shift does not move the argmax), but the
evaluated value differs from targetNet.forward(next_i) by that offset,
which vanishes only when next_i's advantage row mean equals the whole
batch's advantage mean (for instance in one-row batches). -/
theorem double_dqn_target_amended {inSz m : ℕ} (r : ℕ) (γ : ℝ)
    (rewards : Fin r → ℝ) (nextInputs : Matrix (Fin r) (Fin inSz) ℝ)
    (pOn pTg : NetworkParams inSz (m + 1)) (sc : Scaler inSz) (i : Fin r) :
    train_targets γ rewards nextInputs pOn pTg sc i =
      rewards i + γ *
        (model pTg sc (singleRow nextInputs i) 0
            (npArgmax fun j => model pOn sc (singleRow nextInputs i) 0 j) +
          (reduce_mean (advantage_layer_output pTg sc (singleRow nextInputs i)) -
            reduce_mean (advantage_layer_output pTg sc nextInputs))) := by
  rw [train_targets]
  have hargfun : (fun j => model pOn sc nextInputs i j) =
      (fun j => model pOn sc (singleRow nextInputs i) 0 j +
        (reduce_mean (advantage_layer_output pOn sc (singleRow nextInputs i)) -
          reduce_mean (advantage_layer_output pOn sc nextInputs))) :=
    funext fun j => model_single_relation pOn sc nextInputs i j
  rw [hargfun, npArgmax_add_const, model_single_relation pTg sc nextInputs i]

lemma cex_single_adv (i : Fin 1) (j : Fin 2) :
    advantage_layer_output cexParams (idScaler 1) (singleRow cexInput 0) i j = 0 := by
  rw [cex_adv]
  simp [singleRow, cexInput, relu_zero, swish_zero]

lemma cex_single_mean :
    reduce_mean (advantage_layer_output cexParams (idScaler 1)
      (singleRow cexInput 0)) = 0 := by
  rw [reduce_mean]
  simp [Fin.sum_univ_two, Fin.sum_univ_one, cex_single_adv]

lemma cex_single_model (j : Fin 2) :
    model cexParams (idScaler 1) (singleRow cexInput 0) 0 j = 0 := by
  rw [model, cex_val, cex_single_adv, cex_single_mean]
  ring

/-- C3 counterexample: with the same concrete parameters in both
networks, reward 0 and discount 0.9, the target the code computes for
the first sampled transition is 0.9 * (-swish(1)/2), while
reward + discount * targetNet.forward(next_0)[argmax
onlineNet.forward(next_0)] is 0 — the batched forward's whole-batch
advantage centering shifts the evaluated value. -/
theorem double_dqn_target_cex :
    train_targets (9 / 10) (fun _ => 0) cexInput cexParams cexParams
        (idScaler 1) 0 ≠
      (fun _ => (0 : ℝ)) 0 + (9 / 10) *
        model cexParams (idScaler 1) (singleRow cexInput 0) 0
          (npArgmax fun j =>
            model cexParams (idScaler 1) (singleRow cexInput 0) 0 j) := by
  have hs := swish_one_pos
  rw [train_targets, cex_model, cex_single_model]
  norm_num
  linarith

lemma model_onlyValueBias (n m r : ℕ) (c : ℝ) (sc : Scaler n)
    (X : Matrix (Fin r) (Fin n) ℝ) (i : Fin r) (j : Fin m) :
    model (onlyValueBias n m c) sc X i j = swish c := by
  have hval : value_layer_output (onlyValueBias n m c) sc X i 0 = swish c := by
    rw [value_layer_output]
    show swish ((∑ k, dense_layer (hidden2 (onlyValueBias n m c) sc X)
        (onlyValueBias n m c).w2 (onlyValueBias n m c).b2 relu i k *
        (onlyValueBias n m c).w3 k 0) + (onlyValueBias n m c).b3 0) = _
    have hz : ∀ k : Fin 16, (onlyValueBias n m c).w3 k (0 : Fin 1) = 0 :=
      fun k => rfl
    rw [Finset.sum_congr rfl fun k _ => by rw [hz k, mul_zero]]
    simp [onlyValueBias]
  have hadv : ∀ (i2 : Fin r) (j2 : Fin m),
      advantage_layer_output (onlyValueBias n m c) sc X i2 j2 = 0 := by
    intro i2 j2
    rw [advantage_layer_output]
    show swish ((∑ k, dense_layer (hidden2 (onlyValueBias n m c) sc X)
        (onlyValueBias n m c).w4 (onlyValueBias n m c).b4 relu i2 k *
        (onlyValueBias n m c).w5 k j2) + (onlyValueBias n m c).b5 j2) = _
    have hz : ∀ k : Fin 16, (onlyValueBias n m c).w5 k j2 = 0 := fun k => rfl
    rw [Finset.sum_congr rfl fun k _ => by rw [hz k, mul_zero]]
    simpa [onlyValueBias] using swish_zero
  have hmean : reduce_mean (advantage_layer_output (onlyValueBias n m c) sc X) = 0 := by
    rw [reduce_mean]
    rw [Finset.sum_congr rfl fun i2 _ =>
      Finset.sum_congr rfl fun j2 _ => hadv i2 j2]
    simp
  rw [model, hval, hadv, hmean]
  ring

lemma allocCopies_cells_lt :
    ∀ (rs : List ℕ) (h : Heap) (c : ℕ), c < h.next →
      (allocCopies h rs).1.cells c = h.cells c
  | [], _, _, _ => rfl
  | r :: rs, h, c, hc => by
    rw [allocCopies]
    show (allocCopies ⟨fun c2 => if c2 = h.next then h.cells r else h.cells c2,
      h.next + 1⟩ rs).1.cells c = h.cells c
    rw [allocCopies_cells_lt rs _ c (Nat.lt_succ_of_lt hc)]
    show (if c = h.next then h.cells r else h.cells c) = h.cells c
    rw [if_neg (Nat.ne_of_lt hc)]

lemma heapAfterSync_cell_zero (c : ℕ) (h9 : c ≠ 9) (hc : c < 24) :
    heapAfterSync.cells c = (fun _ _ => 0) := by
  have hpres := allocCopies_cells_lt onlineObj.varRefs heap0 c hc
  show (allocCopies heap0 onlineObj.varRefs).1.cells c = _
  rw [hpres]
  show (if c = 9 then (fun _ _ => (1 : ℝ)) else (fun _ _ => 0)) = _
  rw [if_neg h9]

lemma params_target_after :
    paramsOf heapAfterSync targetAfterSync 1 2 = onlyValueBias 1 2 0 := by
  unfold paramsOf onlyValueBias
  congr 1

lemma params_online :
    paramsOf heap0 onlineObj 1 2 = onlyValueBias 1 2 1 := by
  unfold paramsOf onlyValueBias
  congr 1

/-- C2: update_variables rebinds only self._variables while model() reads
self._weights/self._bias, so (1) the parameters the forward pass uses are
untouched by any update_variables call; (2) concretely, after
target.update_variables(online.get_variables()) the target's forward
output is still 0 everywhere, (3) while the online network's forward
output — the values at the time of the copy — is swish 1; (4) mutating
the online cell afterwards still does not change the target's parameters
(get_variables did copy, so there is no aliasing), and (5) swish 1 is not
0, so the target does not compute with the copied online values. -/
theorem update_variables_not_synced :
    (∀ (h : Heap) (nw : NetworkObj) (vars : List ℕ) (inSz outSz : ℕ),
      paramsOf h (update_variables nw vars) inSz outSz =
        paramsOf h nw inSz outSz) ∧
    (∀ (sc : Scaler 1) (X : Matrix (Fin 1) (Fin 1) ℝ) (i : Fin 1) (j : Fin 2),
      modelObj heapAfterSync targetAfterSync 1 2 sc X i j = 0) ∧
    (∀ (sc : Scaler 1) (X : Matrix (Fin 1) (Fin 1) ℝ) (i : Fin 1) (j : Fin 2),
      modelObj heap0 onlineObj 1 2 sc X i j = swish 1) ∧
    (∀ t, paramsOf (writeCell heapAfterSync 9 t) targetAfterSync 1 2 =
      paramsOf heapAfterSync targetAfterSync 1 2) ∧
    swish 1 ≠ 0 := by
  refine ⟨fun h nw vars inSz outSz => rfl, ?_, ?_, ?_, ne_of_gt swish_one_pos⟩
  · intro sc X i j
    rw [modelObj, params_target_after, model_onlyValueBias, swish_zero]
  · intro sc X i j
    rw [modelObj, params_online, model_onlyValueBias]
  · intro t
    rw [params_target_after]
    have : paramsOf (writeCell heapAfterSync 9 t) targetAfterSync 1 2 =
        onlyValueBias 1 2 0 := by
      unfold paramsOf onlyValueBias writeCell
      congr 1
    rw [this]

